import Mathlib

/-!
Verification of the deno-pty-ffi wrapper (TypeScript) against its
natural-language specification.

The development shallowly embeds the TypeScript source:

* JavaScript strings are modelled as lists of Unicode code points
  (`List Nat`); `String.prototype.length` (UTF-16 code units) and the
  UTF-8 encoder are modelled explicitly, because the interplay between
  the two is exactly what the cstring codec in `src/utils.ts` relies on.
* Byte buffers are `List Nat` with every element intended `< 256`.
* The FFI boundary is an oracle: every wrapper operation takes the
  engine's response for the single boundary call it may make, and
  returns the list of boundary calls it actually made, so that claims
  about "no engine call is made" are directly statable.
-/

/-- Number of UTF-16 code units a code point occupies: 1 below 0x10000,
otherwise a surrogate pair (2).  This is what `str.length` counts in JS. -/
def utf16Units (cp : Nat) : Nat := if cp < 65536 then 1 else 2

/-- Model of `str.length` for a JS string given as code points. -/
def jsLength (s : List Nat) : Nat := (s.map utf16Units).sum

/-- Number of bytes of the UTF-8 encoding of one code point. -/
def utf8Len (cp : Nat) : Nat :=
  if cp < 128 then 1 else if cp < 2048 then 2 else if cp < 65536 then 3 else 4

/-- UTF-8 encoding of a single code point. -/
def utf8Bytes (cp : Nat) : List Nat :=
  if cp < 128 then [cp]
  else if cp < 2048 then [192 + cp / 64, 128 + cp % 64]
  else if cp < 65536 then [224 + cp / 4096, 128 + (cp / 64) % 64, 128 + cp % 64]
  else [240 + cp / 262144, 128 + (cp / 4096) % 64, 128 + (cp / 64) % 64, 128 + cp % 64]

/-- UTF-8 encoding of a whole string (list of code points). -/
def utf8Encode (s : List Nat) : List Nat := (s.map utf8Bytes).flatten

/-- Model of `TextEncoder.encodeInto(src, dst)`: writes the UTF-8 bytes of the
longest prefix of `src` whose encoding fits entirely in the remaining
capacity of `dst`; it never writes a partial code point. -/
def encodeIntoGreedy : List Nat → Nat → List Nat
  | [], _ => []
  | cp :: s, cap =>
    if utf8Len cp ≤ cap then utf8Bytes cp ++ encodeIntoGreedy s (cap - utf8Len cp)
    else []

/-- Embedding of `encodeCstring` from `src/utils.ts` (lines 15-19): allocates a
zero-filled buffer of `str.length + 1` bytes (UTF-16 length!) and runs
`TextEncoder.encodeInto` over it; bytes not written stay zero. -/
def encodeCstring (s : List Nat) : List Nat :=
  let cap := jsLength s + 1
  let written := encodeIntoGreedy s cap
  written ++ List.replicate (cap - written.length) 0

/-- Decode one UTF-8 scalar from the head of a byte list, rejecting
malformed sequences, overlong forms and surrogate code points; returns
the code point and the remaining bytes. -/
def utf8DecodeOne (bs : List Nat) : Option (Nat × List Nat) :=
  match bs with
  | [] => none
  | b :: rest =>
    if b < 128 then some (b, rest)
    else if b < 192 then none
    else if b < 224 then
      match rest with
      | b1 :: rest1 =>
        if 128 ≤ b1 ∧ b1 < 192 then
          let cp := (b - 192) * 64 + (b1 - 128)
          if 128 ≤ cp then some (cp, rest1) else none
        else none
      | [] => none
    else if b < 240 then
      match rest with
      | b1 :: b2 :: rest2 =>
        if (128 ≤ b1 ∧ b1 < 192) ∧ (128 ≤ b2 ∧ b2 < 192) then
          let cp := (b - 224) * 4096 + (b1 - 128) * 64 + (b2 - 128)
          if 2048 ≤ cp ∧ ¬(55296 ≤ cp ∧ cp < 57344) then some (cp, rest2) else none
        else none
      | _ => none
    else if b < 248 then
      match rest with
      | b1 :: b2 :: b3 :: rest3 =>
        if (128 ≤ b1 ∧ b1 < 192) ∧ (128 ≤ b2 ∧ b2 < 192) ∧ (128 ≤ b3 ∧ b3 < 192) then
          let cp := (b - 240) * 262144 + (b1 - 128) * 4096 + (b2 - 128) * 64 + (b3 - 128)
          if 65536 ≤ cp ∧ cp < 1114112 then some (cp, rest3) else none
        else none
      | _ => none
    else none

/-- Fuelled driver for the UTF-8 decoder.  `utf8DecodeOne` consumes at
least one byte per scalar, so fuel equal to the byte count makes this
equal to the unbounded decoder. -/
def utf8DecodeAux : Nat → List Nat → Option (List Nat)
  | _, [] => some []
  | 0, _ :: _ => none
  | fuel + 1, bs =>
    match utf8DecodeOne bs with
    | none => none
    | some (cp, rest) => (utf8DecodeAux fuel rest).map (cp :: ·)

/-- Full UTF-8 decoder (the decoding performed by
`Deno.UnsafePointerView.getCString` after the zero-byte scan). -/
def utf8Decode (bs : List Nat) : Option (List Nat) :=
  utf8DecodeAux bs.length bs

/-- Embedding of `decodeCstring` from `src/utils.ts`: scan the buffer up to the first
zero byte and UTF-8-decode what precedes it. -/
def decodeCstring (bs : List Nat) : Option (List Nat) :=
  utf8Decode (bs.takeWhile (fun b => b != 0))

/-- C3. The spec claims `encodeCstring` yields the UTF-8 bytes of the whole
string followed by one zero byte, in particular for multi-byte characters.
The code sizes the buffer by UTF-16 length, so for the one-character string
with code point 233 (a two-byte UTF-8 character) the zero terminator is lost,
and for code point 26085 (three UTF-8 bytes) nothing is written at all. -/
theorem C3_theorem :
    encodeCstring [233] = [195, 169]
    ∧ utf8Encode [233] ++ [0] = [195, 169, 0]
    ∧ encodeCstring [233] ≠ utf8Encode [233] ++ [0]
    ∧ encodeCstring [26085] = [0, 0]
    ∧ utf8Encode [26085] ++ [0] = [230, 151, 165, 0] := by
  refine ⟨by decide, by decide, by decide, by decide, by decide⟩

/-- PtySize as it appears at the wrapper API: rows and cols, with the
two pixel fields optional (absent = the JS property is undefined). -/
structure PtySizeArg where
  rows : Nat
  cols : Nat
  pixel_width : Option Nat
  pixel_height : Option Nat
deriving DecidableEq

/-- Digit code point for a decimal digit (JSON number rendering). -/
def digitCode (d : Nat) : Nat := 48 + d

/-- Most-significant-first decimal digits of a number, as rendered by
`JSON.stringify` (a single `0` for zero). -/
def natDigitsMSD (n : Nat) : List Nat :=
  if n = 0 then [0] else (Nat.digits 10 n).reverse

/-- Decimal rendering of a natural number, as code points. -/
def natToCodes (n : Nat) : List Nat := (natDigitsMSD n).map digitCode

/-- Code points of the leading JSON text up to the rows value:
an opening brace, then a quoted key `rows` and a colon. -/
def rowsLit : List Nat := [123, 34, 114, 111, 119, 115, 34, 58]

/-- Code points of the separator before the cols value. -/
def colsLit : List Nat := [44, 34, 99, 111, 108, 115, 34, 58]

/-- Code points of the separator before the pixel_width value. -/
def pwLit : List Nat := [44, 34, 112, 105, 120, 101, 108, 95, 119, 105, 100, 116, 104, 34, 58]

/-- Code points of the separator before the pixel_height value. -/
def phLit : List Nat := [44, 34, 112, 105, 120, 101, 108, 95, 104, 101, 105, 103, 104, 116, 34, 58]

/-- Model of `JSON.stringify` applied to a PtySize object: keys in property order,
properties whose value is `undefined` are omitted. -/
def toJsonSize (sz : PtySizeArg) : List Nat :=
  rowsLit ++ natToCodes sz.rows ++ colsLit ++ natToCodes sz.cols
  ++ (match sz.pixel_width with
      | none => []
      | some w => pwLit ++ natToCodes w)
  ++ (match sz.pixel_height with
      | none => []
      | some h => phLit ++ natToCodes h)
  ++ [125]

/-- Is the code point a decimal digit? -/
def isDigitCode (c : Nat) : Bool := 48 ≤ c && c ≤ 57

/-- Greedily take a run of decimal digits off the front of a string,
returning their values and the remaining text. -/
def takeDigits : List Nat → List Nat × List Nat
  | [] => ([], [])
  | c :: cs =>
    if isDigitCode c then
      let p := takeDigits cs
      ((c - 48) :: p.1, p.2)
    else ([], c :: cs)

/-- Numeric value of a most-significant-first digit list. -/
def digitsVal (ds : List Nat) : Nat := ds.foldl (fun a d => 10 * a + d) 0

/-- Parse a JSON number (here: a nonempty digit run). -/
def parseJsonNum (s : List Nat) : Option (Nat × List Nat) :=
  match takeDigits s with
  | ([], _) => none
  | (ds, r) => some (digitsVal ds, r)

/-- Match an expected literal at the front of the text, returning the
remainder on success. -/
def expectLit : List Nat → List Nat → Option (List Nat)
  | [], s => some s
  | _ :: _, [] => none
  | p :: ps, c :: cs => if c = p then expectLit ps cs else none

/-- Parse the optional pixel fields plus the closing brace, i.e.
`JSON.parse` restricted to the tails `toJsonSize` can produce. -/
def parseSizeTail (s : List Nat) : Option (Option Nat × Option Nat) :=
  match expectLit pwLit s with
  | some s1 =>
    match parseJsonNum s1 with
    | none => none
    | some (w, s2) =>
      match expectLit phLit s2 with
      | some s3 =>
        match parseJsonNum s3 with
        | none => none
        | some (h, s4) => if s4 = [125] then some (some w, some h) else none
      | none => if s2 = [125] then some (some w, none) else none
  | none =>
    match expectLit phLit s with
    | some s1 =>
      match parseJsonNum s1 with
      | none => none
      | some (h, s2) => if s2 = [125] then some (none, some h) else none
    | none => if s = [125] then some (none, none) else none

/-- Model of `JSON.parse` restricted to the PtySize records `JSON.stringify`
produces (the only inputs `decodeJsonCstring` is used on for sizes). -/
def parseSizeJson (s : List Nat) : Option PtySizeArg :=
  match expectLit rowsLit s with
  | none => none
  | some s1 =>
    match parseJsonNum s1 with
    | none => none
    | some (r, s2) =>
      match expectLit colsLit s2 with
      | none => none
      | some s3 =>
        match parseJsonNum s3 with
        | none => none
        | some (c, s4) =>
          match parseSizeTail s4 with
          | none => none
          | some (w, h) => some ⟨r, c, w, h⟩

/-- Embedding of `encodeJsonCstring` from `src/utils.ts` (lines 3-5):
`encodeCstring(JSON.stringify(data))`, for PtySize records. -/
def encodeJsonCstring (sz : PtySizeArg) : List Nat :=
  encodeCstring (toJsonSize sz)

/-- Embedding of `decodeJsonCstring` from `src/utils.ts` (lines 7-13): read the
cstring at the pointer and `JSON.parse` it, for PtySize records. -/
def decodeJsonCstring (bs : List Nat) : Option PtySizeArg :=
  match decodeCstring bs with
  | none => none
  | some cs => parseSizeJson cs

theorem expectLit_nil (s : List Nat) : expectLit [] s = some s := rfl

theorem expectLit_cons_cons (p : Nat) (ps : List Nat) (c : Nat) (cs : List Nat) :
    expectLit (p :: ps) (c :: cs) = if c = p then expectLit ps cs else none := rfl

theorem expectLit_append (p s : List Nat) : expectLit p (p ++ s) = some s := by
  induction p with
  | nil => rfl
  | cons a q ih => simp [expectLit_cons_cons, ih]

theorem isDigitCode_digitCode (d : Nat) (hd : d < 10) : isDigitCode (digitCode d) = true := by
  simp only [isDigitCode, digitCode, Bool.and_eq_true, decide_eq_true_eq]
  omega

theorem takeDigits_append (ds : List Nat) (hd : ∀ d ∈ ds, d < 10) (c : Nat) (t : List Nat)
    (hc : isDigitCode c = false) :
    takeDigits (ds.map digitCode ++ c :: t) = (ds, c :: t) := by
  induction ds with
  | nil => simp [takeDigits, hc]
  | cons d dt ih =>
    have h1 : isDigitCode (digitCode d) = true := isDigitCode_digitCode d (hd d (by simp))
    simp only [List.map_cons, List.cons_append, takeDigits, h1, if_true, List.append_eq]
    rw [ih (fun x hx => hd x (by simp [hx]))]
    simp [digitCode]

theorem foldl_digits (ds : List Nat) :
    ∀ a : Nat, ds.foldl (fun x d => 10 * x + d) a
      = a * 10 ^ ds.length + Nat.ofDigits 10 ds.reverse := by
  induction ds with
  | nil => intro a; simp [Nat.ofDigits]
  | cons d dt ih =>
    intro a
    simp only [List.foldl_cons, List.reverse_cons, List.length_cons]
    rw [ih (10 * a + d), Nat.ofDigits_append]
    simp only [Nat.ofDigits_singleton, List.length_reverse]
    ring

theorem digitsVal_ofDigits (ds : List Nat) : digitsVal ds = Nat.ofDigits 10 ds.reverse := by
  unfold digitsVal
  rw [foldl_digits]
  simp

theorem digitsVal_natDigitsMSD (n : Nat) : digitsVal (natDigitsMSD n) = n := by
  unfold natDigitsMSD
  by_cases h : n = 0
  · subst h; simp [digitsVal]
  · rw [if_neg h, digitsVal_ofDigits, List.reverse_reverse, Nat.ofDigits_digits]

theorem natDigitsMSD_lt (n : Nat) : ∀ d ∈ natDigitsMSD n, d < 10 := by
  intro d hd
  unfold natDigitsMSD at hd
  by_cases h : n = 0
  · simp [h] at hd; omega
  · rw [if_neg h, List.mem_reverse] at hd
    exact Nat.digits_lt_base (by norm_num) hd

theorem natDigitsMSD_ne_nil (n : Nat) : natDigitsMSD n ≠ [] := by
  unfold natDigitsMSD
  by_cases h : n = 0
  · simp [h]
  · rw [if_neg h]
    simp only [ne_eq, List.reverse_eq_nil_iff]
    exact Nat.digits_ne_nil_iff_ne_zero.mpr h

theorem parseJsonNum_append (n : Nat) (c : Nat) (t : List Nat) (hc : isDigitCode c = false) :
    parseJsonNum (natToCodes n ++ c :: t) = some (n, c :: t) := by
  have h1 : takeDigits (natToCodes n ++ c :: t) = (natDigitsMSD n, c :: t) :=
    takeDigits_append (natDigitsMSD n) (natDigitsMSD_lt n) c t hc
  unfold parseJsonNum
  rw [h1]
  cases hne : natDigitsMSD n with
  | nil => exact absurd hne (natDigitsMSD_ne_nil n)
  | cons d dt =>
    have : digitsVal (d :: dt) = n := by rw [← hne, digitsVal_natDigitsMSD]
    simp [this]

theorem parseSizeJson_toJsonSize (sz : PtySizeArg) : parseSizeJson (toJsonSize sz) = some sz := by
  obtain ⟨r, c, w, h⟩ := sz
  cases w <;> cases h <;>
    simp [toJsonSize, parseSizeJson, parseSizeTail, rowsLit, colsLit, pwLit, phLit,
      expectLit_cons_cons, expectLit_nil, parseJsonNum_append, isDigitCode,
      List.append_assoc]

theorem encodeIntoGreedy_ascii (s : List Nat) (hs : ∀ x ∈ s, x < 128) :
    ∀ cap : Nat, s.length ≤ cap → encodeIntoGreedy s cap = s := by
  induction s with
  | nil => intro cap _; rfl
  | cons c cs ih =>
    intro cap hcap
    have hc : c < 128 := hs c (by simp)
    have h1 : utf8Len c = 1 := by simp [utf8Len, hc]
    have hb : utf8Bytes c = [c] := by simp [utf8Bytes, hc]
    have hle : 1 ≤ cap := le_trans (by simp) hcap
    simp only [encodeIntoGreedy, h1, hb, if_pos hle, List.cons_append, List.nil_append]
    rw [ih (fun x hx => hs x (by simp [hx])) (cap - 1) (by simp at hcap; omega)]

theorem jsLength_ascii (s : List Nat) (hs : ∀ x ∈ s, x < 128) : jsLength s = s.length := by
  induction s with
  | nil => rfl
  | cons c cs ih =>
    have hc : c < 128 := hs c (by simp)
    have h1 : utf16Units c = 1 := by simp [utf16Units]; omega
    simp only [jsLength, List.map_cons, List.sum_cons, h1, List.length_cons]
    rw [← jsLength, ih (fun x hx => hs x (by simp [hx]))]
    omega

theorem encodeCstring_ascii (s : List Nat) (hs : ∀ x ∈ s, x < 128) :
    encodeCstring s = s ++ [0] := by
  simp only [encodeCstring]
  rw [jsLength_ascii s hs, encodeIntoGreedy_ascii s hs (s.length + 1) (by omega)]
  simp

theorem takeWhile_append_zero (l r : List Nat) (hl : ∀ b ∈ l, b ≠ 0) :
    (l ++ 0 :: r).takeWhile (fun b => b != 0) = l := by
  induction l with
  | nil => simp
  | cons b t ih =>
    have hb : (b != 0) = true := by
      simp only [bne_iff_ne, ne_eq]
      exact hl b (by simp)
    simp only [List.cons_append, List.takeWhile_cons, hb, if_true]
    rw [ih (fun x hx => hl x (by simp [hx]))]

theorem utf8DecodeAux_ascii (s : List Nat) (hs : ∀ x ∈ s, x < 128) :
    ∀ fuel : Nat, s.length ≤ fuel → utf8DecodeAux fuel s = some s := by
  induction s with
  | nil => intro fuel _; cases fuel <;> rfl
  | cons c cs ih =>
    intro fuel hf
    cases fuel with
    | zero => simp at hf
    | succ f =>
      have hc : c < 128 := hs c (by simp)
      have h1 : utf8DecodeOne (c :: cs) = some (c, cs) := by
        simp [utf8DecodeOne, hc]
      simp only [utf8DecodeAux, h1]
      rw [ih (fun x hx => hs x (by simp [hx])) f (by simp at hf; omega)]
      rfl

theorem utf8Decode_ascii (s : List Nat) (hs : ∀ x ∈ s, x < 128) :
    utf8Decode s = some s :=
  utf8DecodeAux_ascii s hs s.length le_rfl

theorem natToCodes_bounds (n : Nat) : ∀ x ∈ natToCodes n, 0 < x ∧ x < 128 := by
  intro x hx
  unfold natToCodes at hx
  obtain ⟨d, hd, rfl⟩ := List.mem_map.mp hx
  have := natDigitsMSD_lt n d hd
  unfold digitCode
  omega

theorem mem_append_bound {P : Nat → Prop} {l1 l2 : List Nat}
    (h1 : ∀ x ∈ l1, P x) (h2 : ∀ x ∈ l2, P x) : ∀ x ∈ l1 ++ l2, P x := by
  intro x hx
  rcases List.mem_append.mp hx with h | h
  exacts [h1 x h, h2 x h]

theorem toJsonSize_bounds : ∀ (sz : PtySizeArg), ∀ x ∈ toJsonSize sz, 0 < x ∧ x < 128 := by
  have h0 : ∀ x ∈ ([] : List Nat), 0 < x ∧ x < 128 := by simp
  have h1 : ∀ x ∈ rowsLit, 0 < x ∧ x < 128 := by decide
  have h2 : ∀ x ∈ colsLit, 0 < x ∧ x < 128 := by decide
  have h3 : ∀ x ∈ pwLit, 0 < x ∧ x < 128 := by decide
  have h4 : ∀ x ∈ phLit, 0 < x ∧ x < 128 := by decide
  have h5 : ∀ x ∈ ([125] : List Nat), 0 < x ∧ x < 128 := by decide
  rintro ⟨r, c, _ | w, _ | h⟩
  · exact mem_append_bound (mem_append_bound (mem_append_bound (mem_append_bound
      (mem_append_bound (mem_append_bound h1 (natToCodes_bounds r)) h2)
      (natToCodes_bounds c)) h0) h0) h5
  · exact mem_append_bound (mem_append_bound (mem_append_bound (mem_append_bound
      (mem_append_bound (mem_append_bound h1 (natToCodes_bounds r)) h2)
      (natToCodes_bounds c)) h0) (mem_append_bound h4 (natToCodes_bounds h))) h5
  · exact mem_append_bound (mem_append_bound (mem_append_bound (mem_append_bound
      (mem_append_bound (mem_append_bound h1 (natToCodes_bounds r)) h2)
      (natToCodes_bounds c)) (mem_append_bound h3 (natToCodes_bounds w))) h0) h5
  · exact mem_append_bound (mem_append_bound (mem_append_bound (mem_append_bound
      (mem_append_bound (mem_append_bound h1 (natToCodes_bounds r)) h2)
      (natToCodes_bounds c)) (mem_append_bound h3 (natToCodes_bounds w)))
      (mem_append_bound h4 (natToCodes_bounds h))) h5

/-- C6. Record-codec round trip: for every PtySize value, including ones
whose optional pixel fields are absent, decoding the encoding yields the
original value: `decodeJsonCstring (encodeJsonCstring sz) = some sz`. -/
theorem C6_theorem (sz : PtySizeArg) :
    decodeJsonCstring (encodeJsonCstring sz) = some sz := by
  have hb := toJsonSize_bounds sz
  have h1 : encodeCstring (toJsonSize sz) = toJsonSize sz ++ [0] :=
    encodeCstring_ascii _ (fun x hx => (hb x hx).2)
  unfold decodeJsonCstring encodeJsonCstring
  rw [h1]
  unfold decodeCstring
  rw [show toJsonSize sz ++ [0] = toJsonSize sz ++ 0 :: [] from rfl,
    takeWhile_append_zero _ _ (fun b hbm => Nat.pos_iff_ne_zero.mp (hb b hbm).1),
    utf8Decode_ascii _ (fun x hx => (hb x hx).2)]
  simp [parseSizeJson_toJsonSize]

/-- Wrapper-local state of a `Pty` instance (the revision at
`src/utils.ts` lines 405-843, the one the claims cite): the opaque pointer, null once
closed, and the recorded exit code.  `exitCode` holds `some v` once a
status-99 read carried exit-code text, where `v` is the
`Number.parseInt` result (`none` inside models `NaN`). -/
structure PtyState where
  ptr : Option Nat
  exitCode : Option (Option Nat)
deriving DecidableEq

/-- The PtySize record actually sent over the boundary by `resize`,
after the wrapper has defaulted the optional pixel fields. -/
structure PtySizeRec where
  rows : Nat
  cols : Nat
  pixel_width : Nat
  pixel_height : Nat
deriving DecidableEq

/-- One call across the FFI boundary into the engine.  Each carries the
raw pointer argument the wrapper passed (`none` would be a null
pointer). -/
inductive ECall where
  | read (p : Option Nat)
  | write (p : Option Nat) (data : String)
  | getSize (p : Option Nat)
  | resize (p : Option Nat) (rec : PtySizeRec)
  | close (p : Option Nat)
deriving DecidableEq

/-- Engine response to one `pty_read` call: the returned status byte and
the string behind the result pointer (`none` = null pointer). -/
structure ReadResp where
  status : Int
  payload : Option String
deriving DecidableEq

/-- Engine response to a status-plus-error-pointer call
(`pty_write` / `pty_resize`). -/
structure WriteResp where
  status : Int
  errMsg : String
deriving DecidableEq

/-- Engine response to `pty_get_size`: status, the decoded size record
behind the data pointer (`none` = null data pointer), and the error
text used when status is -1. -/
structure SizeResp where
  status : Int
  sizeRec : Option PtySizeRec
  errMsg : String
deriving DecidableEq

/-- Engine response to `pty_create`: status, the pointer written into
the result buffer (`none` = null), and the error text used when status
is -1. -/
structure CreateResp where
  status : Int
  ptrOut : Option Nat
  errMsg : String
deriving DecidableEq

/-- Result record of a successful `read` at the wrapper API. -/
structure ReadOut where
  data : String
  done : Bool
deriving DecidableEq

/-- Model of `Number.parseInt` on the exit-code text, restricted to the digit
strings the engine actually sends; `none` models `NaN`. -/
def jsParseIntNat (s : String) : Option Nat :=
  (parseJsonNum (s.toList.map Char.toNat)).map (fun p => p.1)

namespace Pty

/-- The `Pty` constructor (`src/utils.ts` lines 427-459): one
`pty_create` boundary call; on status -1 the error text is thrown; on
success a null result pointer is rejected locally, otherwise the
instance starts with a non-null pointer and no exit code. -/
def create (r : CreateResp) : Except String PtyState :=
  if r.status = -1 then .error r.errMsg
  else
    match r.ptrOut with
    | none => .error "Pty creation succeeded but returned a null pointer."
    | some h => .ok ⟨some h, none⟩

/-- Embedding of `Pty.read` (`src/utils.ts` lines 476-526 (same logic at `src/mod.ts` lines 65-96)).  Returns the boundary
calls made and either the error thrown or the new state plus result.
A null pointer throws locally before any boundary call; status 0
returns the data (empty for a null data pointer) with `done := false`;
status 99 records the exit code (when present) and returns done;
status -1 throws the engine error; anything else throws the
unexpected-status error. -/
def read (st : PtyState) (r : ReadResp) :
    List ECall × Except String (PtyState × ReadOut) :=
  match st.ptr with
  | none => ([], .error "Pty is closed.")
  | some h =>
    ([ECall.read (some h)],
      if r.status = 0 then
        .ok (st, ⟨r.payload.getD "", false⟩)
      else if r.status = 99 then
        match r.payload with
        | none => .ok (st, ⟨"", true⟩)
        | some s => .ok ({ st with exitCode := some (jsParseIntNat s) }, ⟨"", true⟩)
      else if r.status = -1 then
        .error ("Pty read failed: " ++ r.payload.getD "")
      else
        .error ("Pty read returned unexpected status: " ++ toString r.status))

end Pty

namespace Pty

/-- Embedding of `Pty.write` (`src/utils.ts` lines 539-561 (same logic at `src/mod.ts` lines 136-155)): a closed handle throws
locally with no boundary call; otherwise the data is forwarded to
`pty_write` and only an engine status of -1 throws. -/
def write (st : PtyState) (data : String) (r : WriteResp) :
    List ECall × Except String PtyState :=
  match st.ptr with
  | none => ([], .error "Pty is closed.")
  | some h =>
    ([ECall.write (some h) data],
      if r.status = -1 then .error ("Pty write failed: " ++ r.errMsg)
      else .ok st)

/-- Embedding of `Pty.getSize` (`src/utils.ts` lines 573-612): closed handle throws
locally; engine status -1 throws the engine error; a null data pointer
on success throws locally; otherwise the decoded record is returned. -/
def getSize (st : PtyState) (r : SizeResp) :
    List ECall × Except String PtySizeRec :=
  match st.ptr with
  | none => ([], .error "Pty is closed.")
  | some h =>
    ([ECall.getSize (some h)],
      if r.status = -1 then .error ("Pty getSize failed: " ++ r.errMsg)
      else
        match r.sizeRec with
        | none => .error "Pty getSize succeeded but returned null data pointer."
        | some sz => .ok sz)

/-- The size record `resize` sends: absent pixel fields default to 0
(`size.pixel_height ??= 0; size.pixel_width ??= 0`). -/
def normalizeSize (sz : PtySizeArg) : PtySizeRec :=
  ⟨sz.rows, sz.cols, sz.pixel_width.getD 0, sz.pixel_height.getD 0⟩

/-- Embedding of `Pty.resize` (`src/utils.ts` lines 624-650): closed handle throws
locally; otherwise the pixel-defaulted record is encoded and sent to
`pty_resize`, and only engine status -1 throws. -/
def resize (st : PtyState) (sz : PtySizeArg) (r : WriteResp) :
    List ECall × Except String Unit :=
  match st.ptr with
  | none => ([], .error "Pty is closed.")
  | some h =>
    ([ECall.resize (some h) (normalizeSize sz)],
      if r.status = -1 then .error ("Pty resize failed: " ++ r.errMsg)
      else .ok ())

/-- Embedding of `Pty.close` (`src/utils.ts` lines 664-683): if the pointer is already
null, nothing happens at all; otherwise the pointer is nulled first and
`pty_close` is called exactly once (exceptions from the call are caught
and only logged, so `close` never throws). -/
def close (st : PtyState) : List ECall × PtyState :=
  match st.ptr with
  | none => ([], st)
  | some h => ([ECall.close (some h)], { st with ptr := none })

end Pty

/-- One wrapper-level operation together with the engine response its
single potential boundary call would get (the oracle). -/
inductive Op where
  | read (r : ReadResp)
  | write (data : String) (r : WriteResp)
  | getSize (r : SizeResp)
  | resize (sz : PtySizeArg) (r : WriteResp)
  | close
deriving DecidableEq

/-- Execute one operation: next state, boundary calls made, and the
outcome (thrown error or normal return, values erased). -/
def stepOp (st : PtyState) (o : Op) : PtyState × List ECall × Except String Unit :=
  match o with
  | .read r =>
    let p := Pty.read st r
    match p.2 with
    | .ok (st1, _) => (st1, p.1, .ok ())
    | .error e => (st, p.1, .error e)
  | .write data r =>
    let p := Pty.write st data r
    match p.2 with
    | .ok st1 => (st1, p.1, .ok ())
    | .error e => (st, p.1, .error e)
  | .getSize r =>
    let p := Pty.getSize st r
    (st, p.1, p.2.map (fun _ => ()))
  | .resize sz r =>
    let p := Pty.resize st sz r
    (st, p.1, p.2)
  | .close =>
    let p := Pty.close st
    (p.2, p.1, .ok ())

/-- Execute a sequence of operations, accumulating in order the
boundary calls made and the per-operation outcomes. -/
def runOps (st : PtyState) : List Op → PtyState × List ECall × List (Except String Unit)
  | [] => (st, [], [])
  | o :: os =>
    let p := stepOp st o
    let q := runOps p.1 os
    (q.1, p.2.1 ++ q.2.1, p.2.2 :: q.2.2)

theorem stepOp_closed (st : PtyState) (o : Op) (hst : st.ptr = none) :
    stepOp st o
      = (st, [], match o with | Op.close => .ok () | _ => .error "Pty is closed.") := by
  cases o <;>
    simp [stepOp, Pty.read, Pty.write, Pty.getSize, Pty.resize, Pty.close, hst, Except.map]

theorem runOps_closed (st : PtyState) (hst : st.ptr = none) (ops : List Op) :
    runOps st ops
      = (st, [], ops.map (fun o =>
          match o with | Op.close => .ok () | _ => .error "Pty is closed.")) := by
  induction ops with
  | nil => simp [runOps]
  | cons o os ih => simp [runOps, stepOp_closed st o hst, ih]

/-- C4. After `close`, every subsequent operation makes no engine call at
all, and each of read, write, getSize and resize raises the wrapper-local
"Pty is closed." error (a repeated close is the silent no-op of C5). -/
theorem C4_theorem (st : PtyState) (ops : List Op) :
    (runOps (Pty.close st).2 ops).2.1 = []
    ∧ (runOps (Pty.close st).2 ops).2.2
        = ops.map (fun o =>
            match o with | Op.close => .ok () | _ => .error "Pty is closed.") := by
  have hc : (Pty.close st).2.ptr = none := by
    cases hp : st.ptr <;> simp [Pty.close, hp]
  rw [runOps_closed _ hc ops]
  exact ⟨rfl, rfl⟩

/-- Does a boundary call target `pty_close`? -/
def isCloseCall : ECall → Bool
  | .close _ => true
  | _ => false

/-- Number of `pty_close` boundary calls in a trace. -/
def closeCallCount (cs : List ECall) : Nat := cs.countP isCloseCall

/-- Does an operation list contain a wrapper-level `close`? -/
def hasCloseOp (ops : List Op) : Bool :=
  ops.any (fun o => match o with | Op.close => true | _ => false)

theorem stepOp_open_not_close (h : Nat) (ec : Option (Option Nat)) (o : Op)
    (ho : o ≠ Op.close) :
    ∃ ec2, (stepOp ⟨some h, ec⟩ o).1 = ⟨some h, ec2⟩
      ∧ closeCallCount (stepOp ⟨some h, ec⟩ o).2.1 = 0 := by
  cases o with
  | read r =>
    by_cases h0 : r.status = 0
    · exact ⟨ec, by simp [stepOp, Pty.read, h0, closeCallCount, isCloseCall]⟩
    · by_cases h99 : r.status = 99
      · cases hp : r.payload with
        | none =>
          exact ⟨ec, by simp [stepOp, Pty.read, h0, h99, hp, closeCallCount, isCloseCall]⟩
        | some s =>
          exact ⟨some (jsParseIntNat s),
            by simp [stepOp, Pty.read, h0, h99, hp, closeCallCount, isCloseCall]⟩
      · by_cases hm : r.status = -1
        · exact ⟨ec, by simp [stepOp, Pty.read, h0, h99, hm, closeCallCount, isCloseCall]⟩
        · exact ⟨ec, by simp [stepOp, Pty.read, h0, h99, hm, closeCallCount, isCloseCall]⟩
  | write d r =>
    by_cases hm : r.status = -1
    · exact ⟨ec, by simp [stepOp, Pty.write, hm, closeCallCount, isCloseCall]⟩
    · exact ⟨ec, by simp [stepOp, Pty.write, hm, closeCallCount, isCloseCall]⟩
  | getSize r =>
    exact ⟨ec, by simp [stepOp, Pty.getSize, closeCallCount, isCloseCall]⟩
  | resize sz r =>
    exact ⟨ec, by simp [stepOp, Pty.resize, closeCallCount, isCloseCall]⟩
  | close => exact absurd rfl ho

theorem runOps_closeCount_open (h : Nat) (ops : List Op) :
    ∀ ec, closeCallCount (runOps ⟨some h, ec⟩ ops).2.1
      = (if hasCloseOp ops then 1 else 0) := by
  induction ops with
  | nil => intro ec; simp [runOps, closeCallCount, hasCloseOp]
  | cons o os ih =>
    intro ec
    by_cases ho : o = Op.close
    · subst ho
      have hstep : stepOp ⟨some h, ec⟩ Op.close
          = (⟨none, ec⟩, [ECall.close (some h)], .ok ()) := by
        simp [stepOp, Pty.close]
      have hrest := runOps_closed ⟨none, ec⟩ rfl os
      simp [runOps, hstep, hrest, closeCallCount, isCloseCall, hasCloseOp]
    · obtain ⟨ec2, hst, hcount⟩ := stepOp_open_not_close h ec o ho
      have hno : (fun o => match o with | Op.close => true | _ => false) o = false := by
        cases o <;> simp_all
      simp only [runOps, List.countP_append, closeCallCount] at *
      rw [hst]
      rw [hcount, ih ec2]
      simp [hasCloseOp, hno]

/-- C5. Close is idempotent at the wrapper: a close on an already-closed
handle makes no engine call and leaves the state unchanged (and close
never throws, by its result type), and over any operation sequence on an
open handle the engine-level `pty_close` is forwarded exactly once when a
wrapper close occurs, never more. -/
theorem C5_theorem (ec : Option (Option Nat)) (h : Nat) (ops : List Op) :
    Pty.close ⟨none, ec⟩ = ([], ⟨none, ec⟩)
    ∧ closeCallCount (runOps ⟨some h, ec⟩ ops).2.1
        = (if hasCloseOp ops then 1 else 0) :=
  ⟨rfl, runOps_closeCount_open h ops ec⟩

/-- C7. A read that gets engine status 0 never raises and never reports
end-of-stream: it returns the data behind the pointer, the empty string
when the data pointer is null (which also covers a zero-length buffer);
read raises only on status -1 or an unexpected status code. -/
theorem C7_theorem (st : PtyState) (h : Nat) (r : ReadResp) (hst : st.ptr = some h) :
    (r.status = 0 → (Pty.read st r).2 = .ok (st, ⟨r.payload.getD "", false⟩))
    ∧ (∀ e, (Pty.read st r).2 = .error e
        → r.status = -1 ∨ (r.status ≠ 0 ∧ r.status ≠ 99)) := by
  constructor
  · intro h0
    simp [Pty.read, hst, h0]
  · intro e he
    by_cases h0 : r.status = 0
    · simp [Pty.read, hst, h0] at he
    · by_cases h99 : r.status = 99
      · cases hp : r.payload <;> simp [Pty.read, hst, h0, h99, hp] at he
      · exact Or.inr ⟨h0, h99⟩

theorem C7_witness :
    (⟨some 1, none⟩ : PtyState).ptr = some 1
    ∧ (((⟨0, none⟩ : ReadResp).status = 0
          → (Pty.read ⟨some 1, none⟩ ⟨0, none⟩).2 = .ok (⟨some 1, none⟩, ⟨"", false⟩))
      ∧ (∀ e, (Pty.read ⟨some 1, none⟩ ⟨0, none⟩).2 = .error e
          → (⟨0, none⟩ : ReadResp).status = -1
            ∨ ((⟨0, none⟩ : ReadResp).status ≠ 0 ∧ (⟨0, none⟩ : ReadResp).status ≠ 99))) :=
  ⟨rfl, C7_theorem ⟨some 1, none⟩ 1 ⟨0, none⟩ rfl⟩

/-- C9. On an open handle, `resize` sends exactly one `pty_resize` call
whose record defaults an absent pixel_width/pixel_height to 0 and
forwards present pixel fields unchanged. -/
theorem C9_theorem (st : PtyState) (h : Nat) (sz : PtySizeArg) (r : WriteResp)
    (hst : st.ptr = some h) :
    (Pty.resize st sz r).1
      = [ECall.resize (some h)
          ⟨sz.rows, sz.cols, sz.pixel_width.getD 0, sz.pixel_height.getD 0⟩]
    ∧ (sz.pixel_width = none → (Pty.normalizeSize sz).pixel_width = 0)
    ∧ (∀ w, sz.pixel_width = some w → (Pty.normalizeSize sz).pixel_width = w)
    ∧ (sz.pixel_height = none → (Pty.normalizeSize sz).pixel_height = 0)
    ∧ (∀ hh, sz.pixel_height = some hh → (Pty.normalizeSize sz).pixel_height = hh) := by
  refine ⟨by simp [Pty.resize, hst, Pty.normalizeSize], ?_, ?_, ?_, ?_⟩
  · intro hw; simp [Pty.normalizeSize, hw]
  · intro w hw; simp [Pty.normalizeSize, hw]
  · intro hh; simp [Pty.normalizeSize, hh]
  · intro hh hhh; simp [Pty.normalizeSize, hhh]

theorem C9_witness :
    (⟨some 1, none⟩ : PtyState).ptr = some 1
    ∧ (Pty.resize ⟨some 1, none⟩ ⟨24, 80, none, some 5⟩ ⟨0, ""⟩).1
        = [ECall.resize (some 1) ⟨24, 80, 0, 5⟩] :=
  ⟨rfl, (C9_theorem ⟨some 1, none⟩ 1 ⟨24, 80, none, some 5⟩ ⟨0, ""⟩ rfl).1⟩

/-- The raw pointer argument a boundary call carries. -/
def ptrArgOf : ECall → Option Nat
  | .read p => p
  | .write p _ => p
  | .getSize p => p
  | .resize p _ => p
  | .close p => p

theorem stepOp_calls (st : PtyState) (o : Op) :
    (stepOp st o).2.1
      = (match o with
        | .read r => (Pty.read st r).1
        | .write d r => (Pty.write st d r).1
        | .getSize r => (Pty.getSize st r).1
        | .resize sz r => (Pty.resize st sz r).1
        | .close => (Pty.close st).1) := by
  cases o with
  | read r =>
    cases h2 : (Pty.read st r).2 with
    | error e => simp [stepOp, h2]
    | ok v => obtain ⟨st1, o1⟩ := v; simp [stepOp, h2]
  | write d r =>
    cases h2 : (Pty.write st d r).2 with
    | error e => simp [stepOp, h2]
    | ok st1 => simp [stepOp, h2]
  | getSize r => rfl
  | resize sz r => rfl
  | close => rfl

theorem stepOp_calls_nonNull (st : PtyState) (o : Op) :
    ((stepOp st o).2.1.all fun c => (ptrArgOf c).isSome) = true := by
  rw [stepOp_calls]
  cases hp : st.ptr <;> cases o <;>
    simp [Pty.read, Pty.write, Pty.getSize, Pty.resize, Pty.close, hp, ptrArgOf]

theorem runOps_calls_nonNull (st : PtyState) (ops : List Op) :
    ((runOps st ops).2.1.all fun c => (ptrArgOf c).isSome) = true := by
  induction ops generalizing st with
  | nil => rfl
  | cons o os ih =>
    simp only [runOps, List.all_append, Bool.and_eq_true]
    exact ⟨stepOp_calls_nonNull st o, ih _⟩

theorem stepOp_ptr_eq (st : PtyState) (o : Op) (ho : o ≠ Op.close) :
    (stepOp st o).1.ptr = st.ptr := by
  cases o with
  | read r =>
    cases hp : st.ptr with
    | none => simp [stepOp, Pty.read, hp]
    | some h =>
      by_cases h0 : r.status = 0
      · simp [stepOp, Pty.read, hp, h0]
      · by_cases h99 : r.status = 99
        · cases hpl : r.payload <;> simp [stepOp, Pty.read, hp, h0, h99, hpl]
        · by_cases hm : r.status = -1 <;> simp [stepOp, Pty.read, hp, h0, h99, hm]
  | write d r =>
    cases hp : st.ptr with
    | none => simp [stepOp, Pty.write, hp]
    | some h => by_cases hm : r.status = -1 <;> simp [stepOp, Pty.write, hp, hm]
  | getSize r => rfl
  | resize sz r => rfl
  | close => exact absurd rfl ho

/-- C10. Non-null-handle invariant: a constructor that returns normally
holds a non-null pointer (a create that yields a null pointer throws
instead), every boundary call of every operation sequence carries a
non-null pointer argument, and the stored pointer can only change (to
null) through `close`. -/
theorem C10_theorem (cr : CreateResp) (st0 st : PtyState) (ops : List Op) (o : Op) :
    (Pty.create cr = .ok st0 → st0.ptr ≠ none)
    ∧ ((runOps st ops).2.1.all fun c => (ptrArgOf c).isSome) = true
    ∧ ((stepOp st o).1.ptr ≠ st.ptr → o = Op.close) := by
  refine ⟨?_, runOps_calls_nonNull st ops, ?_⟩
  · intro hok
    unfold Pty.create at hok
    split at hok
    · simp at hok
    · cases hpo : cr.ptrOut <;> rw [hpo] at hok
      · simp at hok
      · simp only [Except.ok.injEq] at hok
        subst hok
        simp
  · intro hne
    by_contra ho
    exact hne (stepOp_ptr_eq st o ho)

theorem C10_witness :
    Pty.create ⟨0, some 5, ""⟩ = .ok ⟨some 5, none⟩
    ∧ (⟨some 5, none⟩ : PtyState).ptr ≠ none :=
  ⟨rfl, (C10_theorem ⟨0, some 5, ""⟩ ⟨some 5, none⟩ ⟨some 5, none⟩ [] Op.close).1 rfl⟩

theorem read_exited (h : Nat) (ec : Option (Option Nat)) (r : ReadResp)
    (h99 : r.status = 99) :
    ∃ ec2, (Pty.read ⟨some h, ec⟩ r).2 = .ok (⟨some h, ec2⟩, ⟨"", true⟩) := by
  have h0 : r.status ≠ 0 := by rw [h99]; decide
  cases hpl : r.payload with
  | none => exact ⟨ec, by simp [Pty.read, h0, h99, hpl]⟩
  | some s => exact ⟨some (jsParseIntNat s), by simp [Pty.read, h0, h99, hpl]⟩

/-- C1 (counterexample). The claim says that after a status-99 read every
subsequent read returns the done result without an engine call.  At the
concrete state reached by a status-99 read, the next read does issue a
`pty_read` boundary call. -/
theorem C1_counterexample :
    (Pty.read ⟨some 1, none⟩ ⟨99, some "0"⟩).2
      = .ok (⟨some 1, some (some 0)⟩, ⟨"", true⟩)
    ∧ (Pty.read ⟨some 1, some (some 0)⟩ ⟨99, some "0"⟩).1 = [ECall.read (some 1)]
    ∧ [ECall.read (some 1)] ≠ ([] : List ECall) := by
  refine ⟨by rfl, rfl, by simp⟩

/-- C1 (amended). After a read returns status 99 the wrapper records the
done result but keeps the handle open; a subsequent read on the same
handle issues another `pty_read` engine call, and returns the done
result again exactly when the engine again reports status 99. -/
theorem C1_theorem (h : Nat) (ec : Option (Option Nat)) (r r2 : ReadResp)
    (h99 : r.status = 99) :
    ∀ st1 o1, (Pty.read ⟨some h, ec⟩ r).2 = .ok (st1, o1) →
      o1 = ⟨"", true⟩
      ∧ st1.ptr = some h
      ∧ (Pty.read st1 r2).1 = [ECall.read (some h)]
      ∧ ((∃ st2, (Pty.read st1 r2).2 = .ok (st2, ⟨"", true⟩)) ↔ r2.status = 99) := by
  intro st1 o1 hok
  obtain ⟨ec2, heq⟩ := read_exited h ec r h99
  rw [heq] at hok
  simp only [Except.ok.injEq, Prod.mk.injEq] at hok
  obtain ⟨h1, h2⟩ := hok
  subst h1
  subst h2
  refine ⟨rfl, rfl, by simp [Pty.read], ?_⟩
  constructor
  · rintro ⟨st2, hst2⟩
    by_cases h0 : r2.status = 0
    · simp [Pty.read, h0] at hst2
    · by_cases h9 : r2.status = 99
      · exact h9
      · by_cases hm : r2.status = -1 <;> simp [Pty.read, h0, h9, hm] at hst2
  · intro h9
    obtain ⟨ec3, heq3⟩ := read_exited h ec2 r2 h9
    exact ⟨_, heq3⟩

theorem C1_witness :
    ((⟨99, some "0"⟩ : ReadResp).status = 99)
    ∧ ((Pty.read ⟨some 1, none⟩ ⟨99, some "0"⟩).2
        = .ok (⟨some 1, some (some 0)⟩, ⟨"", true⟩))
    ∧ ((⟨"", true⟩ : ReadOut) = ⟨"", true⟩
      ∧ (⟨some 1, some (some 0)⟩ : PtyState).ptr = some 1
      ∧ (Pty.read ⟨some 1, some (some 0)⟩ ⟨99, some "0"⟩).1 = [ECall.read (some 1)]
      ∧ ((∃ st2, (Pty.read ⟨some 1, some (some 0)⟩ ⟨99, some "0"⟩).2
            = .ok (st2, ⟨"", true⟩))
          ↔ (⟨99, some "0"⟩ : ReadResp).status = 99)) :=
  ⟨rfl, by rfl,
    C1_theorem 1 none ⟨99, some "0"⟩ ⟨99, some "0"⟩ rfl
      ⟨some 1, some (some 0)⟩ ⟨"", true⟩ (by rfl)⟩

/-- C2 (counterexample). The claim says a write after a status-99 read
forwards nothing to the engine.  At the concrete state reached by a
status-99 read, a write does issue a `pty_write` boundary call (and
returns normally when the engine reports success). -/
theorem C2_counterexample :
    (Pty.read ⟨some 1, none⟩ ⟨99, some "0"⟩).2
      = .ok (⟨some 1, some (some 0)⟩, ⟨"", true⟩)
    ∧ (Pty.write ⟨some 1, some (some 0)⟩ "x" ⟨0, ""⟩).1 = [ECall.write (some 1) "x"]
    ∧ [ECall.write (some 1) "x"] ≠ ([] : List ECall)
    ∧ (Pty.write ⟨some 1, some (some 0)⟩ "x" ⟨0, ""⟩).2 = .ok ⟨some 1, some (some 0)⟩ := by
  refine ⟨by rfl, rfl, by simp, by rfl⟩

/-- C2 (amended). After a read has signalled process exit, a write on the
still-unclosed handle is forwarded to the engine via one `pty_write`
boundary call; it returns normally whenever the engine does not report
status -1. -/
theorem C2_theorem (h : Nat) (ec : Option (Option Nat)) (r : ReadResp) (data : String)
    (w : WriteResp) (h99 : r.status = 99) :
    ∀ st1 o1, (Pty.read ⟨some h, ec⟩ r).2 = .ok (st1, o1) →
      (Pty.write st1 data w).1 = [ECall.write (some h) data]
      ∧ (w.status ≠ -1 → (Pty.write st1 data w).2 = .ok st1) := by
  intro st1 o1 hok
  obtain ⟨ec2, heq⟩ := read_exited h ec r h99
  rw [heq] at hok
  simp only [Except.ok.injEq, Prod.mk.injEq] at hok
  obtain ⟨h1, h2⟩ := hok
  subst h1
  constructor
  · simp [Pty.write]
  · intro hw
    simp [Pty.write, hw]

theorem C2_witness :
    ((⟨99, some "0"⟩ : ReadResp).status = 99)
    ∧ ((Pty.read ⟨some 1, none⟩ ⟨99, some "0"⟩).2
        = .ok (⟨some 1, some (some 0)⟩, ⟨"", true⟩))
    ∧ ((Pty.write ⟨some 1, some (some 0)⟩ "x" ⟨0, ""⟩).1 = [ECall.write (some 1) "x"]
      ∧ ((⟨0, ""⟩ : WriteResp).status ≠ -1
          → (Pty.write ⟨some 1, some (some 0)⟩ "x" ⟨0, ""⟩).2
            = .ok ⟨some 1, some (some 0)⟩)) :=
  ⟨rfl, by rfl,
    C2_theorem 1 none ⟨99, some "0"⟩ "x" ⟨0, ""⟩ rfl
      ⟨some 1, some (some 0)⟩ ⟨"", true⟩ (by rfl)⟩

/-- State of the `readable` stream adapter (`src/utils.ts` lines 696-774):
the cancellation flag, whether the polling loop has exited, the pending
`setTimeout` id, and the wrapped Pty state. -/
structure AdapterState where
  cancelled : Bool
  stopped : Bool
  timer : Option Nat
  pty : PtyState
deriving DecidableEq

/-- One scheduling event of the adapter: a polling-loop iteration (with
the engine response its read would get), or the consumer cancelling the
stream. -/
inductive AdapterEv where
  | iterate (r : ReadResp)
  | cancel
deriving DecidableEq

/-- One adapter event.  `cancel` sets the flag and clears any pending
timer, making no session or boundary call.  `iterate` is one pass of the
polling loop: the loop-head check observes the cancellation flag (or a
previous loop exit) and does nothing; otherwise a nulled Pty pointer
closes the stream, else `read` is performed, the intra-iteration timer
having fired by iteration end; an error or a done result exits the
loop. -/
def adapterStep (a : AdapterState) (e : AdapterEv) : AdapterState × List ECall :=
  match e with
  | .cancel => ({ a with cancelled := true, timer := none }, [])
  | .iterate r =>
    if a.cancelled || a.stopped then (a, [])
    else
      match a.pty.ptr with
      | none => ({ a with stopped := true, timer := none }, [])
      | some _ =>
        let p := Pty.read a.pty r
        match p.2 with
        | .error _ => ({ a with stopped := true, timer := none }, p.1)
        | .ok (st1, o1) =>
          if o1.done then ({ a with pty := st1, stopped := true, timer := none }, p.1)
          else ({ a with pty := st1, timer := none }, p.1)

/-- Run the adapter over a sequence of events, accumulating the boundary
calls it makes. -/
def adapterRun (a : AdapterState) : List AdapterEv → AdapterState × List ECall
  | [] => (a, [])
  | e :: es =>
    let p := adapterStep a e
    let q := adapterRun p.1 es
    (q.1, p.2 ++ q.2)

/-- Is the boundary call a `pty_read`? -/
def isReadCall : ECall → Bool
  | .read _ => true
  | _ => false

theorem adapterStep_cancelled (a : AdapterState) (e : AdapterEv) (hc : a.cancelled = true) :
    (adapterStep a e).1.cancelled = true ∧ (adapterStep a e).2 = [] := by
  cases e with
  | cancel => simp [adapterStep]
  | iterate r => simp [adapterStep, hc]

theorem adapterRun_cancelled (a : AdapterState) (evs : List AdapterEv)
    (hc : a.cancelled = true) : (adapterRun a evs).2 = [] := by
  induction evs generalizing a with
  | nil => rfl
  | cons e es ih =>
    obtain ⟨h1, h2⟩ := adapterStep_cancelled a e hc
    simp [adapterRun, h2, ih _ h1]

theorem adapterRun_append (a : AdapterState) (xs ys : List AdapterEv) :
    adapterRun a (xs ++ ys)
      = ((adapterRun (adapterRun a xs).1 ys).1,
        (adapterRun a xs).2 ++ (adapterRun (adapterRun a xs).1 ys).2) := by
  induction xs generalizing a with
  | nil => simp [adapterRun]
  | cons x xs ih => simp [adapterRun, ih, List.append_assoc]

theorem adapterStep_calls_read (a : AdapterState) (e : AdapterEv) :
    ((adapterStep a e).2.all isReadCall) = true := by
  cases e with
  | cancel => rfl
  | iterate r =>
    by_cases hcs : (a.cancelled || a.stopped) = true
    · simp [adapterStep, hcs]
    · cases hp : a.pty.ptr with
      | none => simp [adapterStep, hcs, hp]
      | some h =>
        have hcall : (Pty.read a.pty r).1 = [ECall.read (some h)] := by
          simp [Pty.read, hp]
        cases h2 : (Pty.read a.pty r).2 with
        | error e => simp [adapterStep, hcs, hp, h2, hcall, isReadCall]
        | ok v =>
          obtain ⟨st1, o1⟩ := v
          by_cases hd : o1.done = true <;>
            simp [adapterStep, hcs, hp, h2, hcall, hd, isReadCall]

theorem adapterRun_calls_read (a : AdapterState) (evs : List AdapterEv) :
    ((adapterRun a evs).2.all isReadCall) = true := by
  induction evs generalizing a with
  | nil => rfl
  | cons e es ih =>
    simp only [adapterRun, List.all_append, Bool.and_eq_true]
    exact ⟨adapterStep_calls_read a e, ih _⟩

theorem adapterRun_cons (a : AdapterState) (e : AdapterEv) (es : List AdapterEv) :
    adapterRun a (e :: es)
      = ((adapterRun (adapterStep a e).1 es).1,
        (adapterStep a e).2 ++ (adapterRun (adapterStep a e).1 es).2) := rfl

/-- C8. When the consumer cancels the readable stream: no boundary call
at all (in particular no read) happens from the cancellation event on,
the pending timer is cleared by the cancellation handler, and the
adapter never applies any session operation other than `pty_read` in the
whole run — in particular no close and no write. -/
theorem C8_theorem (a : AdapterState) (pre post : List AdapterEv) :
    (adapterRun a (pre ++ AdapterEv.cancel :: post)).2 = (adapterRun a pre).2
    ∧ (adapterRun a (pre ++ [AdapterEv.cancel])).1.timer = none
    ∧ ((adapterRun a (pre ++ AdapterEv.cancel :: post)).2.all isReadCall) = true := by
  refine ⟨?_, ?_, ?_⟩
  · rw [adapterRun_append a pre (AdapterEv.cancel :: post)]
    have h2 : (adapterRun (adapterRun a pre).1 (AdapterEv.cancel :: post)).2 = [] := by
      rw [adapterRun_cons]
      have hc : (adapterStep (adapterRun a pre).1 AdapterEv.cancel).1.cancelled = true := rfl
      have he : (adapterStep (adapterRun a pre).1 AdapterEv.cancel).2 = [] := rfl
      rw [he, adapterRun_cancelled _ post hc]
      rfl
    simp [h2]
  · rw [adapterRun_append a pre [AdapterEv.cancel]]
    rfl
  · exact adapterRun_calls_read a _
